import Mathlib

/-!
# Channel-level service (`internal/handler/handler.go`)

A shallow embedding of the request handler of the channel-level service:
`processMessage` (encode, inject channel errors, correct and decode,
validate) and `transfer` (drop decision, processing, hand-over to the
transport level).

The handler delegates the codec to `usecase.Coder`, whose package is not
among the sources.  The handler is therefore embedded over an arbitrary
`Coder`, and a Hamming(15,11) coder written after the specification is
supplied separately (`specCoder`).  Like the handler, that coder is built
without arguments and decodes from the frames alone.

Go values are embedded as follows: `[]byte` and `string` payloads are lists
of bytes (conversion between the two copies the bytes), `int` is `Int`,
`uint32` carries no arithmetic here and is `Nat`, an `error` is
`Option String` (`none` is `nil`), and a function with several results
returns a tuple.  Calls that leave the function (the coder, the loggers,
JSON and HTTP) are recorded, in order, in a trace; an index out of range is
a panic.
-/

namespace ChanalLevel

/-- A Go `byte`. -/
abbrev Byte := Fin 256

/-! ## Constants and records of `handler.go` -/

/-- The package constants read by `transfer` and `processMessage`. -/
structure Config where
  frameLoseProbability : Int
  frameErrorProbability : Int
  transferEndpoint : String
deriving DecidableEq

/-- Value of `const frameLoseProbability = 16  // проценты * 10`. -/
def frameLoseProbability : Int := 16

/-- Value of `const frameErrorProbability = 10 // проценты`. -/
def frameErrorProbability : Int := 10

/-- Value of `const transferEndpoint`. -/
def transferEndpoint : String := "http://192.168.244.111:8080/transfer"

/-- The constants as they are compiled into the handler. -/
def config : Config :=
  { frameLoseProbability := frameLoseProbability
    frameErrorProbability := frameErrorProbability
    transferEndpoint := transferEndpoint }

/-- Inbound record, `type CodeRequest struct`. -/
structure CodeRequest where
  Id : Int
  MessageId : Int
  Sender : String
  Time : Int
  SegCount : Nat
  SegNum : Nat
  Payload : List Byte
  Error : String
deriving DecidableEq

/-- Outbound record, `type CodeTransferRequest struct`. -/
structure CodeTransferRequest where
  Id : Int
  MessageId : Int
  Sender : String
  Time : Int
  SegCount : Nat
  SegNum : Nat
  Payload : List Byte
  Error : String
deriving DecidableEq

/-! ## Effects -/

/-- Argument of a formatted print. -/
inductive Arg where
  | str (s : String)
  | bytes (b : List Byte)
  | int (n : Int)
deriving DecidableEq

/-- The calls a run of the handler makes, `F` being the frame type of the coder. -/
inductive Event (F : Type) where
  | fmtPrintln (s : String)
  | fmtPrintf (format : String) (arg : Arg)
  | logPrintln (s : String)
  | coderEncode (message : List Byte)
  | coderSetRandomErrors (frames : F) (probability : Int)
  | coderFixAndDecode (frames : F)
  | jsonMarshal (v : CodeTransferRequest)
  | httpNewRequest (method url : String) (body : List Byte)
  | headerSet (key value : String)
  | httpDo (url : String) (body : List Byte)
  | bodyClose
deriving DecidableEq

/-- How a Go function ends: it returns its results or it panics. -/
inductive Outcome (α : Type) where
  | returned (v : α)
  | panicked (reason : String)
deriving DecidableEq

/-- One run of a function: the calls it made and how it ended. -/
structure Run (F α : Type) where
  trace : List (Event F)
  outcome : Outcome α
deriving DecidableEq

/-- The three methods of `usecase.Coder` that the handler calls, as they
behave in one run (the random choices of `SetRandomErrors` are fixed by the
run). -/
structure Coder (F : Type) where
  Encode : List Byte → F × Option String
  SetRandomErrors : F → Int → F
  FixAndDecode : F → List Byte × Option String

/-- What `transfer` meets outside the handler in one run: the coder, the
value drawn by `rand.Intn(1000)`, and the results of `json.Marshal`,
`http.NewRequest` and `http.DefaultClient.Do` (status code and error). -/
structure World (F : Type) where
  coder : Coder F
  randIntn : Nat
  jsonMarshal : CodeTransferRequest → List Byte × Option String
  httpNewRequest : String → String → List Byte → Option String
  httpDo : String → List Byte → Int × Option String

/-! ## `processMessage` -/

/-- The validation loop of `processMessage`,
`for ind, _byte := range message { if _byte != decodedFrames[ind] { ... break } }`,
started at index `ind` with the bytes of `message` still to visit.  It yields
the log line written, if any, and the final `hasError`, or a panic when
`decodedFrames[ind]` is out of range. -/
def validationLoop {F : Type} (decodedFrames : List Byte) :
    Nat → List Byte → List (Event F) × Outcome String
  | _, [] => ([], Outcome.returned "")
  | ind, _byte :: rest =>
    match decodedFrames[ind]? with
    | none => ([], Outcome.panicked "index out of range")
    | some d =>
      if _byte ≠ d then ([Event.logPrintln "[Error] Frames inequality"], Outcome.returned "Error")
      else validationLoop decodedFrames (ind + 1) rest

/-- The function `processMessage(message []byte) ([]byte, string, error)`. -/
def processMessage {F : Type} (cfg : Config) (coder : Coder F) (message : List Byte) :
    Run F (List Byte × String × Option String) :=
  match coder.Encode message with
  | (_, some err) =>
    { trace := [Event.coderEncode message, Event.logPrintln "[Error] Encoding issue"]
      outcome := Outcome.returned ([], "", some ("Enocding issue: " ++ err)) }
  | (encodedFrames, none) =>
    let channelFrames := coder.SetRandomErrors encodedFrames cfg.frameErrorProbability
    let calls : List (Event F) :=
      [Event.coderEncode message,
       Event.coderSetRandomErrors encodedFrames cfg.frameErrorProbability,
       Event.coderFixAndDecode channelFrames]
    match coder.FixAndDecode channelFrames with
    | (_, some err) =>
      { trace := calls ++ [Event.logPrintln "[Error] Decoding issue"]
        outcome := Outcome.returned ([], "", some ("Decoding issue: " ++ err)) }
    | (decodedFrames, none) =>
      match validationLoop decodedFrames 0 message with
      | (logged, Outcome.panicked reason) =>
        { trace := calls ++ logged, outcome := Outcome.panicked reason }
      | (logged, Outcome.returned hasError) =>
        { trace := calls ++ logged
          outcome := Outcome.returned (decodedFrames, hasError, none) }

/-! ## `transfer` -/

/-- The record `transfer` builds for `json.Marshal`. -/
def transferRecord (codeRequest : CodeRequest) (processedMessage : List Byte)
    (hasErrors : String) : CodeTransferRequest :=
  { Id := codeRequest.Id
    MessageId := codeRequest.MessageId
    Sender := codeRequest.Sender
    Time := codeRequest.Time
    SegCount := codeRequest.SegCount
    SegNum := codeRequest.SegNum
    Payload := processedMessage
    Error := hasErrors }

/-- The part of `transfer` after a successful `processMessage`: marshal the
record, build the request, send it, check the status. -/
def sendDownstream {F : Type} (cfg : Config) (w : World F) (codeRequest : CodeRequest)
    (processedMessage : List Byte) (hasErrors : String) : List (Event F) :=
  let record := transferRecord codeRequest processedMessage hasErrors
  let prepared : List (Event F) :=
    [Event.jsonMarshal record,
     Event.fmtPrintf "[Info] Prepared message: %s\n" (Arg.bytes record.Payload)]
  match w.jsonMarshal record with
  | (_, some err) =>
    prepared ++ [Event.fmtPrintf "[Error] Can\x27t create transfer request: %s\n" (Arg.str err)]
  | (transferReqBody, none) =>
    let built : List (Event F) :=
      prepared ++ [Event.httpNewRequest "POST" cfg.transferEndpoint transferReqBody]
    match w.httpNewRequest "POST" cfg.transferEndpoint transferReqBody with
    | some err =>
      built ++ [Event.fmtPrintf "[Error] Can\x27t create transfer request: %s\n" (Arg.str err)]
    | none =>
      let sent : List (Event F) :=
        built ++ [Event.headerSet "Content-Type" "application/json",
                  Event.httpDo cfg.transferEndpoint transferReqBody]
      match w.httpDo cfg.transferEndpoint transferReqBody with
      | (_, some err) =>
        sent ++ [Event.fmtPrintf "[Error] Transfer request issue: %s\n" (Arg.str err)]
      | (statusCode, none) =>
        if statusCode ≠ 200 then
          sent ++ [Event.fmtPrintf "[Info] Unexpected status code while transferring %d\n"
                     (Arg.int statusCode),
                   Event.bodyClose]
        else sent ++ [Event.bodyClose]

/-- The function `transfer(codeRequest CodeRequest)`. -/
def transfer {F : Type} (cfg : Config) (w : World F) (codeRequest : CodeRequest) :
    Run F Unit :=
  if (w.randIntn : Int) < cfg.frameLoseProbability then
    { trace := [Event.fmtPrintln "[Info] Message lost"], outcome := Outcome.returned () }
  else
    let processed := processMessage cfg w.coder codeRequest.Payload
    match processed.outcome with
    | Outcome.panicked reason =>
      { trace := processed.trace, outcome := Outcome.panicked reason }
    | Outcome.returned (_, _, some err) =>
      { trace := processed.trace ++
          [Event.fmtPrintf "[Error] Error while processing message: %s\n" (Arg.str err)]
        outcome := Outcome.returned () }
    | Outcome.returned (processedMessage, hasErrors, none) =>
      { trace := processed.trace ++ sendDownstream cfg w codeRequest processedMessage hasErrors
        outcome := Outcome.returned () }

/-- The run of `transfer` in which the message is lost. -/
def lostRun (F : Type) : Run F Unit :=
  { trace := [Event.fmtPrintln "[Info] Message lost"], outcome := Outcome.returned () }

/-- Whether an event builds or sends the downstream transfer request. -/
def Event.isDownstream {F : Type} : Event F → Bool
  | Event.jsonMarshal _ => true
  | Event.httpNewRequest _ _ _ => true
  | Event.headerSet _ _ => true
  | Event.httpDo _ _ => true
  | _ => false

/-- Whether an event is a call of the coder. -/
def Event.isCoderCall {F : Type} : Event F → Bool
  | Event.coderEncode _ => true
  | Event.coderSetRandomErrors _ _ => true
  | Event.coderFixAndDecode _ => true
  | _ => false

/-- A stand-in coder that encodes every message as `frames`, leaves the
frames alone in the channel step and decodes to `decoded`, with the given
error results.  It instantiates the handler at concrete inputs. -/
def stubCoder {F : Type} (frames : F) (encodeErr : Option String) (decoded : List Byte)
    (decodeErr : Option String) : Coder F :=
  { Encode := fun _ => (frames, encodeErr)
    SetRandomErrors := fun fs _ => fs
    FixAndDecode := fun _ => (decoded, decodeErr) }

/-- A world around `coder` with draw `r`, in which marshalling yields the
payload bytes and the downstream service answers 200. -/
def stubWorld {F : Type} (coder : Coder F) (r : Nat) : World F :=
  { coder := coder
    randIntn := r
    jsonMarshal := fun v => (v.Payload, none)
    httpNewRequest := fun _ _ _ => none
    httpDo := fun _ _ => (200, none) }

/-! ## The coder, after the specification

`usecase.Coder` is not among the sources.  The definitions below follow the
BitStreamPacker, HammingEncoder, ChannelSimulator and HammingDecoder of the
specification.  A data block is a natural number below `2 ^ 11`, a codeword
one below `2 ^ 15`; position `p` of a codeword (1-indexed) is bit `p - 1` of
the number, and the data bits of a block are taken most significant first.
-/

/-- Modelled from the spec: the value of a bit string read most significant
bit first (BitStreamPacker). -/
def bitsToNat (bs : List Bool) : Nat := bs.foldl (fun acc b => 2 * acc + b.toNat) 0

/-- Modelled from the spec: the `w` low bits of `n`, most significant first
(BitStreamPacker). -/
def natBits (w n : Nat) : List Bool := (List.range w).map (fun j => n.testBit (w - 1 - j))

/-- Modelled from the spec: the bits of a byte, "most-significant-bit first
per byte" (BitStreamPacker `pack`). -/
def byteBits (x : Byte) : List Bool := natBits 8 x.val

/-- Modelled from the spec: the byte read from eight bits (BitStreamPacker
`unpack`). -/
def byteOfBits (bs : List Bool) : Byte := ⟨bitsToNat bs % 256, Nat.mod_lt _ (by decide)⟩

/-- Modelled from the spec: the input as "one contiguous bit string"
(BitStreamPacker `pack`). -/
def bitString (bytes : List Byte) : List Bool := bytes.flatMap byteBits

/-- Modelled from the spec: the `k`-th consecutive group of `w` bits of a bit
string, zero-padded "on its low-order end" past the end of the string
(BitStreamPacker `pack`). -/
def group (w : Nat) (bits : List Bool) (k : Nat) : List Bool :=
  (List.range w).map (fun j => bits.getD (w * k + j) false)

/-- Modelled from the spec: BitStreamPacker `pack`, the byte sequence sliced
into `ceil(bits / 11)` consecutive 11-bit data blocks. -/
def pack (bytes : List Byte) : List Nat :=
  (List.range (((bitString bytes).length + 10) / 11)).map
    (fun k => bitsToNat (group 11 (bitString bytes) k))

/-- Modelled from the spec: the first step of BitStreamPacker `unpack`, which
"concatenates the 11-bit groups back into a bit string and re-slices into
bytes": every whole byte of the bit string, the bytes of the padding included. -/
def reslice (blocks : List Nat) : List Byte :=
  (List.range ((blocks.flatMap (natBits 11)).length / 8)).map
    (fun k => byteOfBits (group 8 (blocks.flatMap (natBits 11)) k))

/-- Modelled from the spec: BitStreamPacker `unpack`, the re-sliced bytes which
it "then truncates to `original_byte_length`". -/
def unpack (blocks : List Nat) (originalByteLength : Nat) : List Byte :=
  (reslice blocks).take originalByteLength

/-- Modelled from the spec: the number of whole bytes of padding that follow a
payload of `n` bytes once it is packed into 11-bit blocks ("zero-pads the last
group") and re-sliced into bytes. -/
def paddingBytes (n : Nat) : Nat := 11 * ((8 * n + 10) / 11) / 8 - n

/-- Modelled from the spec: the codeword positions that hold data bits, those
of `1..15` that are not powers of two (HammingEncoder). -/
def dataPositions : List Nat := [3, 5, 6, 7, 9, 10, 11, 12, 13, 14, 15]

/-- Modelled from the spec: codeword `c` with the bit at position `p` set when
`v` holds (HammingEncoder). -/
def setBit (c p : Nat) (v : Bool) : Nat := if v then c ||| (1 <<< (p - 1)) else c

/-- Modelled from the spec: the data bits of block `b` placed, in order, at
the data positions of an otherwise zero codeword (HammingEncoder). -/
def placeData (b : Nat) : Nat :=
  (List.zip dataPositions (natBits 11 b)).foldl (fun c pv => setBit c pv.1 pv.2) 0

/-- Modelled from the spec: the parity for position `2 ^ k`, "the exclusive-OR
of all data-bit positions whose binary representation has bit `k` set"
(HammingEncoder). -/
def parity (c k : Nat) : Bool :=
  ((dataPositions.filter (fun p => p.testBit k)).map (fun p => c.testBit (p - 1))).foldl
    xor false

/-- Modelled from the spec: HammingEncoder `encode`, data bits at the data
positions and the four parity bits at positions 1, 2, 4 and 8. -/
def encode (b : Nat) : Nat :=
  (List.range 4).foldl (fun c k => setBit c (2 ^ k) (parity (placeData b) k)) (placeData b)

/-- Modelled from the spec: bit `k` of the syndrome, "the parity bit stored in
the codeword against the parity recomputed from the current data bits"
(HammingDecoder). -/
def syndromeBit (c k : Nat) : Bool := xor (c.testBit (2 ^ k - 1)) (parity c k)

/-- Modelled from the spec: the 4-bit syndrome, "interpreted as a 1-based bit
position (0 = no error)" (HammingDecoder). -/
def syndrome (c : Nat) : Nat :=
  (List.range 4).foldl (fun s k => if syndromeBit c k then s + 2 ^ k else s) 0

/-- Modelled from the spec: the 11 data-bit positions "read off in their
defined order" (HammingDecoder). -/
def extract (c : Nat) : Nat := bitsToNat (dataPositions.map (fun p => c.testBit (p - 1)))

/-- Modelled from the spec: the per-codeword result CorrectionOutcome of the
data model. -/
structure CorrectionOutcome where
  corrected_block : Nat
  error_was_corrected : Bool
  error_was_uncorrectable : Bool
deriving DecidableEq

/-- Modelled from the spec: HammingDecoder `correctAndExtract`.  Syndrome 0
uses the codeword as it is; a syndrome in `1..15` flips the indicated bit
before extraction; any other syndrome is uncorrectable and the uncorrected
data bits are returned. -/
def correctAndExtract (c : Nat) : Nat × CorrectionOutcome :=
  if syndrome c = 0 then
    (extract c,
      { corrected_block := extract c, error_was_corrected := false,
        error_was_uncorrectable := false })
  else if syndrome c ≤ 15 then
    (extract (c ^^^ (1 <<< (syndrome c - 1))),
      { corrected_block := extract (c ^^^ (1 <<< (syndrome c - 1))),
        error_was_corrected := true, error_was_uncorrectable := false })
  else
    (extract c,
      { corrected_block := extract c, error_was_corrected := false,
        error_was_uncorrectable := true })

/-- Modelled from the spec: ChannelSimulator `injectBitError` on the random
stream `rng` read from index `n`: one draw in `[0, 1000)`; when it is below
the probability, a second draw in `[0, 15)` names the bit to flip.  The result
is the codeword and the next index of the stream. -/
def injectBitError (rng : Nat → Nat) (c : Nat) (probability : Int) (n : Nat) : Nat × Nat :=
  if ((rng n % 1000 : Nat) : Int) < probability then
    (c ^^^ (1 <<< (rng (n + 1) % 15)), n + 2)
  else (c, n + 1)

/-- Modelled from the spec: the channel step over a message, `injectBitError`
"applied independently per codeword", reading the stream from index `n`. -/
def setRandomErrors (rng : Nat → Nat) (probability : Int) : List Nat → Nat → List Nat
  | [], _ => []
  | c :: cs, n =>
    (injectBitError rng c probability n).1 ::
      setRandomErrors rng probability cs (injectBitError rng c probability n).2

/-- Modelled from the spec: `usecase.Coder` as `processMessage` calls it, built
without arguments.  `Encode` packs and encodes.  `FixAndDecode` receives the
frames only: it corrects and extracts every frame and re-slices the blocks
into bytes; the truncation of `unpack` needs the original byte length, which
the handler does not pass, so the bytes of the padding stay.  Neither call
fails; the channel step is the given `channel`. -/
def specCoder (channel : List Nat → Int → List Nat) : Coder (List Nat) :=
  { Encode := fun message => ((pack message).map encode, none)
    SetRandomErrors := channel
    FixAndDecode := fun frames => (reslice (frames.map (fun c => (correctAndExtract c).1)), none) }

/-- The five bytes of the ASCII text HELLO. -/
def hello : List Byte := [72, 69, 76, 76, 79]

/-- A sample inbound request carrying `hello`. -/
def helloRequest : CodeRequest :=
  { Id := 7
    MessageId := 42
    Sender := "alice"
    Time := 1700000000
    SegCount := 3
    SegNum := 1
    Payload := hello
    Error := "stale" }

/-- The draws of `rand.Intn(1000)` on which `transfer` loses the message:
those satisfying its test `rand.Intn(1000) < frameLoseProbability`. -/
def lostDraws (cfg : Config) : List Nat :=
  (List.range 1000).filter (fun r => decide ((r : Int) < cfg.frameLoseProbability))

/-! ## Lemmas: the validation loop and the cases of `processMessage` -/

/-- A differing byte at an index both sequences have. -/
theorem mismatch_cons (b x : Byte) (rest xs : List Byte) :
    (∃ i, i < (b :: rest).length ∧ i < (x :: xs).length ∧ (b :: rest)[i]? ≠ (x :: xs)[i]?) ↔
      b ≠ x ∨ ∃ i, i < rest.length ∧ i < xs.length ∧ rest[i]? ≠ xs[i]? := by
  constructor
  · rintro ⟨i, h1, h2, h3⟩
    cases i with
    | zero => left; simpa using h3
    | succ j =>
      right
      refine ⟨j, ?_, ?_, ?_⟩
      · simpa using h1
      · simpa using h2
      · simpa using h3
  · rintro (h | ⟨j, h1, h2, h3⟩)
    · exact ⟨0, by simp, by simp, by simpa using h⟩
    · exact ⟨j + 1, by simpa using h1, by simpa using h2, by simpa using h3⟩

theorem validationLoop_drop {F : Type} (d : List Byte) :
    ∀ (rest : List Byte) (ind : Nat) (t : List Byte), d.drop ind = t →
      ((∃ i, i < rest.length ∧ i < t.length ∧ rest[i]? ≠ t[i]?) →
        validationLoop (F := F) d ind rest =
          ([Event.logPrintln "[Error] Frames inequality"], Outcome.returned "Error")) ∧
      ((¬ ∃ i, i < rest.length ∧ i < t.length ∧ rest[i]? ≠ t[i]?) → rest.length ≤ t.length →
        validationLoop (F := F) d ind rest = ([], Outcome.returned "")) ∧
      ((¬ ∃ i, i < rest.length ∧ i < t.length ∧ rest[i]? ≠ t[i]?) → t.length < rest.length →
        validationLoop (F := F) d ind rest = ([], Outcome.panicked "index out of range")) := by
  intro rest
  induction rest with
  | nil =>
    intro ind t _
    refine ⟨?_, ?_, ?_⟩
    · rintro ⟨i, h1, _, _⟩
      simp at h1
    · intro _ _
      rfl
    · intro _ h
      simp at h
  | cons b rest ih =>
    intro ind t ht
    cases t with
    | nil =>
      have hnone : d[ind]? = none := by
        have hlen : d.length ≤ ind := by
          have := congrArg List.length ht
          simp at this
          omega
        exact List.getElem?_eq_none hlen
      refine ⟨?_, ?_, ?_⟩
      · rintro ⟨i, _, h2, _⟩
        simp at h2
      · intro _ h
        simp at h
      · intro _ _
        simp only [validationLoop, hnone]
    | cons x xs =>
      have hsome : d[ind]? = some x := by
        have h0 : (d.drop ind)[0]? = some x := by rw [ht]; simp
        rw [List.getElem?_drop] at h0
        simpa using h0
      have hdrop : d.drop (ind + 1) = xs := by
        have h1 : (d.drop ind).drop 1 = xs := by rw [ht]; rfl
        rw [List.drop_drop] at h1
        rw [← h1, Nat.add_comm]
      obtain ⟨ih1, ih2, ih3⟩ := ih (ind + 1) xs hdrop
      rw [mismatch_cons]
      by_cases hbx : b = x
      · have hstep : validationLoop (F := F) d ind (b :: rest)
            = validationLoop (F := F) d (ind + 1) rest := by
          simp only [validationLoop, hsome, hbx, ne_eq, not_true_eq_false, if_false]
        rw [hstep]
        refine ⟨?_, ?_, ?_⟩
        · rintro (h | h)
          · exact absurd hbx h
          · exact ih1 h
        · intro hno hlen
          exact ih2 (fun h => hno (Or.inr h)) (by simpa using hlen)
        · intro hno hlen
          exact ih3 (fun h => hno (Or.inr h)) (by simpa using hlen)
      · have hstep : validationLoop (F := F) d ind (b :: rest)
            = ([Event.logPrintln "[Error] Frames inequality"], Outcome.returned "Error") := by
          simp only [validationLoop, hsome, ne_eq, hbx, not_false_eq_true, if_true]
        rw [hstep]
        refine ⟨fun _ => rfl, ?_, ?_⟩
        · intro hno
          exact absurd (Or.inl hbx) hno
        · intro hno
          exact absurd (Or.inl hbx) hno

theorem validationLoop_zero {F : Type} (d message : List Byte) :
    ((∃ i, i < message.length ∧ i < d.length ∧ message[i]? ≠ d[i]?) →
      validationLoop (F := F) d 0 message =
        ([Event.logPrintln "[Error] Frames inequality"], Outcome.returned "Error")) ∧
    ((¬ ∃ i, i < message.length ∧ i < d.length ∧ message[i]? ≠ d[i]?) →
      message.length ≤ d.length →
        validationLoop (F := F) d 0 message = ([], Outcome.returned "")) ∧
    ((¬ ∃ i, i < message.length ∧ i < d.length ∧ message[i]? ≠ d[i]?) →
      d.length < message.length →
        validationLoop (F := F) d 0 message = ([], Outcome.panicked "index out of range")) :=
  validationLoop_drop d message 0 d (List.drop_zero d)

/-- No differing byte at a shared index: the two sequences agree on their
common length. -/
theorem no_mismatch_iff_take (a b : List Byte) :
    (¬ ∃ i, i < a.length ∧ i < b.length ∧ a[i]? ≠ b[i]?) ↔
      a.take b.length = b.take a.length := by
  constructor
  · intro h
    apply List.ext_getElem?
    intro i
    rw [List.getElem?_take, List.getElem?_take]
    by_cases h1 : i < a.length
    · by_cases h2 : i < b.length
      · simp only [h1, h2, if_true]
        by_contra hne
        exact h ⟨i, h1, h2, hne⟩
      · simp only [h1, h2, if_true, if_false]
        rw [List.getElem?_eq_none (by omega)]
    · by_cases h2 : i < b.length
      · simp only [h1, h2, if_true, if_false]
        rw [List.getElem?_eq_none (by omega)]
      · simp only [h1, h2, if_false]
  · rintro h ⟨i, h1, h2, h3⟩
    have := congrArg (fun l => l[i]?) h
    simp only [List.getElem?_take, h1, h2, if_true] at this
    exact h3 this

theorem processMessage_encodeErr {F : Type} (cfg : Config) (coder : Coder F)
    (message : List Byte) (err : String) (h : (coder.Encode message).2 = some err) :
    processMessage cfg coder message =
      { trace := [Event.coderEncode message, Event.logPrintln "[Error] Encoding issue"]
        outcome := Outcome.returned ([], "", some ("Enocding issue: " ++ err)) } := by
  unfold processMessage
  rcases hE : coder.Encode message with ⟨fs, e⟩
  rw [hE] at h
  simp only at h
  subst h
  rfl

theorem processMessage_decodeErr {F : Type} (cfg : Config) (coder : Coder F)
    (message : List Byte) (err : String) (hE : (coder.Encode message).2 = none)
    (hD : (coder.FixAndDecode
      (coder.SetRandomErrors (coder.Encode message).1 cfg.frameErrorProbability)).2 = some err) :
    processMessage cfg coder message =
      { trace :=
          [Event.coderEncode message,
           Event.coderSetRandomErrors (coder.Encode message).1 cfg.frameErrorProbability,
           Event.coderFixAndDecode
             (coder.SetRandomErrors (coder.Encode message).1 cfg.frameErrorProbability),
           Event.logPrintln "[Error] Decoding issue"]
        outcome := Outcome.returned ([], "", some ("Decoding issue: " ++ err)) } := by
  unfold processMessage
  rcases hE2 : coder.Encode message with ⟨fs, e⟩
  rw [hE2] at hE hD
  simp only at hE hD
  subst hE
  simp only
  rcases hD2 : coder.FixAndDecode (coder.SetRandomErrors fs cfg.frameErrorProbability)
    with ⟨d, e2⟩
  rw [hD2] at hD
  simp only at hD
  subst hD
  rfl

theorem processMessage_decoded {F : Type} (cfg : Config) (coder : Coder F)
    (message d : List Byte) (hE : (coder.Encode message).2 = none)
    (hD : coder.FixAndDecode
      (coder.SetRandomErrors (coder.Encode message).1 cfg.frameErrorProbability) = (d, none)) :
    processMessage cfg coder message =
      { trace :=
          [Event.coderEncode message,
           Event.coderSetRandomErrors (coder.Encode message).1 cfg.frameErrorProbability,
           Event.coderFixAndDecode
             (coder.SetRandomErrors (coder.Encode message).1 cfg.frameErrorProbability)]
            ++ (validationLoop d 0 message).1
        outcome :=
          match (validationLoop (F := F) d 0 message).2 with
          | Outcome.panicked reason => Outcome.panicked reason
          | Outcome.returned hasError => Outcome.returned (d, hasError, none) } := by
  unfold processMessage
  rcases hE2 : coder.Encode message with ⟨fs, e⟩
  rw [hE2] at hE hD
  simp only at hE hD
  subst hE
  simp only
  rw [hD]
  simp only
  rcases hV : validationLoop (F := F) d 0 message with ⟨logged, o⟩
  cases o <;> rfl

/-! ## Lemmas: the runs of `transfer` -/

theorem validationLoop_logged {F : Type} (d : List Byte) :
    ∀ (rest : List Byte) (ind : Nat) (ev : Event F),
      ev ∈ (validationLoop (F := F) d ind rest).1 →
        ev = Event.logPrintln "[Error] Frames inequality" := by
  intro rest
  induction rest with
  | nil =>
    intro ind ev h
    simp [validationLoop] at h
  | cons b rest ih =>
    intro ind ev h
    unfold validationLoop at h
    split at h
    · simp at h
    · split at h
      · simpa using h
      · exact ih (ind + 1) ev h

theorem processMessage_trace_head {F : Type} (cfg : Config) (coder : Coder F)
    (message : List Byte) :
    ∃ rest, (processMessage cfg coder message).trace = Event.coderEncode message :: rest := by
  unfold processMessage
  split
  · exact ⟨_, rfl⟩
  · simp only
    split
    · exact ⟨_, rfl⟩
    · split <;> exact ⟨_, rfl⟩

theorem processMessage_trace_not_downstream {F : Type} (cfg : Config) (coder : Coder F)
    (message : List Byte) (ev : Event F) (h : ev ∈ (processMessage cfg coder message).trace) :
    ev.isDownstream = false := by
  unfold processMessage at h
  split at h
  · simp only [List.mem_cons, List.mem_singleton, List.not_mem_nil, or_false] at h
    rcases h with h | h <;> subst h <;> rfl
  · simp only at h
    split at h
    · simp only [List.mem_append, List.mem_cons, List.mem_singleton, List.not_mem_nil,
        or_false] at h
      rcases h with (h | h | h) | h <;> subst h <;> rfl
    · rename_i decodedFrames _
      split at h
      all_goals
        rename_i logged _ hV
        simp only [List.mem_append, List.mem_cons, List.mem_singleton, List.not_mem_nil,
          or_false] at h
        rcases h with (h | h | h) | h
        · subst h; rfl
        · subst h; rfl
        · subst h; rfl
        · have hl : ev ∈ (validationLoop (F := F) decodedFrames 0 message).1 := by
            rw [hV]; exact h
          rw [validationLoop_logged decodedFrames message 0 ev hl]
          rfl

theorem transfer_lost {F : Type} (cfg : Config) (w : World F) (codeRequest : CodeRequest)
    (h : (w.randIntn : Int) < cfg.frameLoseProbability) :
    transfer cfg w codeRequest = lostRun F := by
  unfold transfer lostRun
  rw [if_pos h]

theorem transfer_kept_trace {F : Type} (cfg : Config) (w : World F) (codeRequest : CodeRequest)
    (h : ¬ (w.randIntn : Int) < cfg.frameLoseProbability) :
    ∃ rest, (transfer cfg w codeRequest).trace
      = (processMessage cfg w.coder codeRequest.Payload).trace ++ rest := by
  unfold transfer
  rw [if_neg h]
  simp only
  split
  · exact ⟨[], by simp⟩
  · exact ⟨_, rfl⟩
  · exact ⟨_, rfl⟩

theorem transfer_kept_ne_lost {F : Type} (cfg : Config) (w : World F)
    (codeRequest : CodeRequest) (h : ¬ (w.randIntn : Int) < cfg.frameLoseProbability) :
    transfer cfg w codeRequest ≠ lostRun F := by
  intro heq
  obtain ⟨rest, hrest⟩ := transfer_kept_trace cfg w codeRequest h
  obtain ⟨rest2, hhead⟩ := processMessage_trace_head cfg w.coder codeRequest.Payload
  rw [heq, hhead] at hrest
  simp [lostRun] at hrest

theorem transfer_lost_iff {F : Type} (cfg : Config) (w : World F) (codeRequest : CodeRequest) :
    transfer cfg w codeRequest = lostRun F ↔ (w.randIntn : Int) < cfg.frameLoseProbability := by
  constructor
  · intro h
    by_contra hn
    exact transfer_kept_ne_lost cfg w codeRequest hn h
  · exact transfer_lost cfg w codeRequest

theorem transfer_failed {F : Type} (cfg : Config) (w : World F) (codeRequest : CodeRequest)
    (h : ¬ (w.randIntn : Int) < cfg.frameLoseProbability) (b : List Byte) (s err : String)
    (hpm : (processMessage cfg w.coder codeRequest.Payload).outcome
      = Outcome.returned (b, s, some err)) :
    transfer cfg w codeRequest =
      { trace := (processMessage cfg w.coder codeRequest.Payload).trace ++
          [Event.fmtPrintf "[Error] Error while processing message: %s\n" (Arg.str err)]
        outcome := Outcome.returned () } := by
  unfold transfer
  rw [if_neg h]
  simp only [hpm]

theorem transfer_sent {F : Type} (cfg : Config) (w : World F) (codeRequest : CodeRequest)
    (h : ¬ (w.randIntn : Int) < cfg.frameLoseProbability) (d : List Byte) (flag : String)
    (hpm : (processMessage cfg w.coder codeRequest.Payload).outcome
      = Outcome.returned (d, flag, none)) :
    transfer cfg w codeRequest =
      { trace := (processMessage cfg w.coder codeRequest.Payload).trace ++
          sendDownstream cfg w codeRequest d flag
        outcome := Outcome.returned () } := by
  unfold transfer
  rw [if_neg h]
  simp only [hpm]

theorem sendDownstream_marshal_mem {F : Type} (cfg : Config) (w : World F)
    (codeRequest : CodeRequest) (d : List Byte) (flag : String) :
    Event.jsonMarshal (transferRecord codeRequest d flag)
      ∈ sendDownstream cfg w codeRequest d flag := by
  unfold sendDownstream
  simp only
  split
  · simp
  · split
    · simp
    · split
      · simp
      · split <;> simp

theorem sendDownstream_marshal_unique {F : Type} (cfg : Config) (w : World F)
    (codeRequest : CodeRequest) (d : List Byte) (flag : String) (v : CodeTransferRequest)
    (h : Event.jsonMarshal v ∈ sendDownstream cfg w codeRequest d flag) :
    v = transferRecord codeRequest d flag := by
  unfold sendDownstream at h
  simp only at h
  split at h
  · simpa using h
  · split at h
    · simpa using h
    · split at h
      · simpa using h
      · split at h <;> simpa using h

theorem sendDownstream_do_mem {F : Type} (cfg : Config) (w : World F)
    (codeRequest : CodeRequest) (d : List Byte) (flag : String) (body : List Byte)
    (hm : w.jsonMarshal (transferRecord codeRequest d flag) = (body, none))
    (hn : w.httpNewRequest "POST" cfg.transferEndpoint body = none) :
    Event.httpDo cfg.transferEndpoint body ∈ sendDownstream cfg w codeRequest d flag := by
  unfold sendDownstream
  simp only [hm, hn]
  split
  · simp
  · split <;> simp

theorem processMessage_flag {F : Type} (cfg : Config) (coder : Coder F)
    (message d : List Byte) (flag : String)
    (hpm : (processMessage cfg coder message).outcome = Outcome.returned (d, flag, none)) :
    (flag = "Error" ∨ flag = "") ∧
    (flag ≠ "" ↔ ∃ i, i < message.length ∧ i < d.length ∧ message[i]? ≠ d[i]?) := by
  rcases hE : (coder.Encode message).2 with _ | e
  · rcases hD : coder.FixAndDecode
        (coder.SetRandomErrors (coder.Encode message).1 cfg.frameErrorProbability)
      with ⟨d2, _ | e2⟩
    · rw [processMessage_decoded cfg coder message d2 hE hD] at hpm
      obtain ⟨h1, h2, h3⟩ := validationLoop_zero (F := F) d2 message
      by_cases hm : ∃ i, i < message.length ∧ i < d2.length ∧ message[i]? ≠ d2[i]?
      · rw [h1 hm] at hpm
        simp only [Outcome.returned.injEq, Prod.mk.injEq, and_true] at hpm
        obtain ⟨hd, hf⟩ := hpm
        subst hd
        subst hf
        exact ⟨Or.inl rfl, ⟨fun _ => hm, fun _ => by decide⟩⟩
      · by_cases hlen : message.length ≤ d2.length
        · rw [h2 hm hlen] at hpm
          simp only [Outcome.returned.injEq, Prod.mk.injEq, and_true] at hpm
          obtain ⟨hd, hf⟩ := hpm
          subst hd
          subst hf
          exact ⟨Or.inr rfl, ⟨fun h => absurd rfl h, fun h => absurd h hm⟩⟩
        · rw [h3 hm (by omega)] at hpm
          cases hpm
    · have hD2 : (coder.FixAndDecode
          (coder.SetRandomErrors (coder.Encode message).1 cfg.frameErrorProbability)).2
          = some e2 := by rw [hD]
      rw [processMessage_decodeErr cfg coder message e2 hE hD2] at hpm
      simp at hpm
  · rw [processMessage_encodeErr cfg coder message e hE] at hpm
    simp at hpm

/-! ## The Hamming(15,11) code of the specification -/

theorem bitsToNat_append (l : List Bool) (b : Bool) :
    bitsToNat (l ++ [b]) = 2 * bitsToNat l + b.toNat := by
  simp [bitsToNat, List.foldl_append]

theorem bitsToNat_lt (l : List Bool) : bitsToNat l < 2 ^ l.length := by
  induction l using List.reverseRecOn with
  | nil => simp [bitsToNat]
  | append_singleton l b ih =>
    rw [bitsToNat_append, List.length_append, List.length_singleton, Nat.pow_succ]
    cases b <;> simp <;> omega

theorem testBit_bitsToNat (l : List Bool) :
    ∀ i, (bitsToNat l).testBit i = l.reverse.getD i false := by
  induction l using List.reverseRecOn with
  | nil =>
    intro i
    simp [bitsToNat]
  | append_singleton l b ih =>
    intro i
    rw [bitsToNat_append, List.reverse_append, List.reverse_singleton, List.singleton_append]
    cases i with
    | zero =>
      rw [Nat.testBit_zero]
      cases b <;> simp
      omega
    | succ j =>
      rw [Nat.testBit_succ, List.getD_cons_succ, ← ih j]
      congr 1
      cases b <;> simp
      omega

theorem foldl_xor_map (f g : Nat → Bool) (l : List Nat) (a b : Bool) :
    (l.map (fun p => xor (f p) (g p))).foldl xor (xor a b)
      = xor ((l.map f).foldl xor a) ((l.map g).foldl xor b) := by
  induction l generalizing a b with
  | nil => rfl
  | cons p l ih =>
    simp only [List.map_cons, List.foldl_cons]
    rw [← ih]
    congr 1
    cases a <;> cases b <;> cases f p <;> cases g p <;> rfl

theorem parity_xor (c e k : Nat) : parity (c ^^^ e) k = xor (parity c k) (parity e k) := by
  unfold parity
  rw [← foldl_xor_map]
  simp only [Nat.testBit_xor, Bool.xor_false]

theorem syndromeBit_xor (c e k : Nat) :
    syndromeBit (c ^^^ e) k = xor (syndromeBit c k) (syndromeBit e k) := by
  unfold syndromeBit
  rw [parity_xor, Nat.testBit_xor]
  cases c.testBit (2 ^ k - 1) <;> cases e.testBit (2 ^ k - 1) <;> cases parity c k <;>
    cases parity e k <;> rfl

theorem syndrome_eq (c : Nat) : syndrome c =
    (syndromeBit c 0).toNat + 2 * (syndromeBit c 1).toNat + 4 * (syndromeBit c 2).toNat
      + 8 * (syndromeBit c 3).toNat := by
  simp only [syndrome, List.range, List.range.loop, List.foldl]
  cases syndromeBit c 0 <;> cases syndromeBit c 1 <;> cases syndromeBit c 2 <;>
    cases syndromeBit c 3 <;> rfl

/-- The syndrome of a codeword with syndrome 0 to which an error pattern is
added is the syndrome of the pattern. -/
theorem syndrome_xor_of_zero (c e : Nat) (h : syndrome c = 0) :
    syndrome (c ^^^ e) = syndrome e := by
  rw [syndrome_eq] at h
  have h0 : syndromeBit c 0 = false := by
    cases hb : syndromeBit c 0 <;> simp [hb] at h ⊢
  have h1 : syndromeBit c 1 = false := by
    cases hb : syndromeBit c 1 <;> simp [hb] at h ⊢
  have h2 : syndromeBit c 2 = false := by
    cases hb : syndromeBit c 2 <;> simp [hb] at h ⊢
  have h3 : syndromeBit c 3 = false := by
    cases hb : syndromeBit c 3 <;> simp [hb] at h ⊢
  rw [syndrome_eq, syndrome_eq, syndromeBit_xor, syndromeBit_xor, syndromeBit_xor,
    syndromeBit_xor, h0, h1, h2, h3]
  simp

theorem syndrome_single (i : Nat) (hi : i < 15) : syndrome (1 <<< i) = i + 1 := by
  have h : ∀ j, j < 15 → syndrome (1 <<< j) = j + 1 := by decide
  exact h i hi

theorem testBit_setBit (c p i : Nat) (v : Bool) :
    (setBit c p v).testBit i = (c.testBit i || (v && decide (p - 1 = i))) := by
  unfold setBit
  cases v
  · simp
  · simp only [if_true, Nat.testBit_or, Nat.one_shiftLeft, Nat.testBit_two_pow, Bool.true_and]

theorem encode_unfold (b : Nat) :
    encode b = setBit (setBit (setBit (setBit (placeData b) 1 (parity (placeData b) 0)) 2
      (parity (placeData b) 1)) 4 (parity (placeData b) 2)) 8 (parity (placeData b) 3) := rfl

theorem placeData_unfold (b : Nat) :
    placeData b = setBit (setBit (setBit (setBit (setBit (setBit (setBit (setBit (setBit (setBit
      (setBit 0 3 (b.testBit 10)) 5 (b.testBit 9)) 6 (b.testBit 8)) 7 (b.testBit 7))
      9 (b.testBit 6)) 10 (b.testBit 5)) 11 (b.testBit 4)) 12 (b.testBit 3))
      13 (b.testBit 2)) 14 (b.testBit 1)) 15 (b.testBit 0) := rfl

theorem testBit_placeData_parity (b k : Nat) (hk : k < 4) :
    (placeData b).testBit (2 ^ k - 1) = false := by
  have h : k = 0 ∨ k = 1 ∨ k = 2 ∨ k = 3 := by omega
  rw [placeData_unfold]
  rcases h with h | h | h | h <;> subst h <;>
    simp only [testBit_setBit, Nat.zero_testBit] <;> simp

theorem testBit_encode_parity (b k : Nat) (hk : k < 4) :
    (encode b).testBit (2 ^ k - 1) = parity (placeData b) k := by
  have h : k = 0 ∨ k = 1 ∨ k = 2 ∨ k = 3 := by omega
  have hz := testBit_placeData_parity b
  rw [encode_unfold]
  rcases h with h | h | h | h <;> subst h <;>
    simp only [testBit_setBit, hz _ hk] <;> simp

theorem testBit_encode_data (b p : Nat) (hp : p ∈ dataPositions) :
    (encode b).testBit (p - 1) = (placeData b).testBit (p - 1) := by
  rw [encode_unfold]
  simp only [dataPositions, List.mem_cons, List.mem_singleton, List.not_mem_nil, or_false] at hp
  rcases hp with h | h | h | h | h | h | h | h | h | h | h <;> subst h <;>
    simp only [testBit_setBit] <;> simp

theorem parity_encode (b k : Nat) : parity (encode b) k = parity (placeData b) k := by
  unfold parity
  congr 1
  apply List.map_congr_left
  intro p hp
  exact testBit_encode_data b p (List.mem_of_mem_filter hp)

theorem syndrome_encode (b : Nat) : syndrome (encode b) = 0 := by
  have h : ∀ k, k < 4 → syndromeBit (encode b) k = false := by
    intro k hk
    rw [syndromeBit, testBit_encode_parity b k hk, parity_encode, Bool.xor_self]
  rw [syndrome_eq, h 0 (by omega), h 1 (by omega), h 2 (by omega), h 3 (by omega)]
  rfl

theorem testBit_natBits_reverse (w n i : Nat) :
    (natBits w n).reverse.getD i false = (decide (i < w) && n.testBit i) := by
  by_cases h : i < w
  · rw [List.getD_eq_getElem?_getD, List.getElem?_reverse (by simpa [natBits] using h)]
    simp only [natBits, List.length_map, List.length_range, List.getElem?_map]
    rw [List.getElem?_range (by omega)]
    have : w - 1 - (w - 1 - i) = i := by omega
    simp [this, h]
  · rw [List.getD_eq_default _ _ (by simp [natBits]; omega)]
    simp [h]

theorem bitsToNat_natBits (w n : Nat) (h : n < 2 ^ w) : bitsToNat (natBits w n) = n := by
  apply Nat.eq_of_testBit_eq
  intro i
  rw [testBit_bitsToNat, testBit_natBits_reverse]
  by_cases hi : i < w
  · simp [hi]
  · have : n < 2 ^ i := Nat.lt_of_lt_of_le h (Nat.pow_le_pow_right (by decide) (by omega))
    simp [hi, Nat.testBit_lt_two_pow this]

theorem extract_encode (b : Nat) (hb : b < 2 ^ 11) : extract (encode b) = b := by
  have hbits : dataPositions.map (fun p => (encode b).testBit (p - 1)) = natBits 11 b := by
    have h1 : dataPositions.map (fun p => (encode b).testBit (p - 1))
        = dataPositions.map (fun p => (placeData b).testBit (p - 1)) :=
      List.map_congr_left (fun p hp => testBit_encode_data b p hp)
    rw [h1, placeData_unfold]
    simp only [dataPositions, List.map, testBit_setBit, Nat.zero_testBit, natBits, List.range,
      List.range.loop]
    simp
  rw [extract, hbits, bitsToNat_natBits 11 b hb]

theorem correctAndExtract_encode (b : Nat) (hb : b < 2 ^ 11) :
    (correctAndExtract (encode b)).1 = b := by
  simp only [correctAndExtract, syndrome_encode b, if_true, extract_encode b hb]

theorem correctAndExtract_flip (b i : Nat) (hb : b < 2 ^ 11) (hi : i < 15) :
    (correctAndExtract (encode b ^^^ (1 <<< i))).1 = b := by
  have hsyn : syndrome (encode b ^^^ (1 <<< i)) = i + 1 := by
    rw [syndrome_xor_of_zero _ _ (syndrome_encode b), syndrome_single i hi]
  have hfix : encode b ^^^ (1 <<< i) ^^^ (1 <<< i) = encode b := by
    rw [Nat.xor_assoc, Nat.xor_self, Nat.xor_zero]
  have h1 : ¬ (i + 1 = 0) := by omega
  have h2 : i + 1 ≤ 15 := by omega
  simp only [correctAndExtract, hsyn, h1, h2, if_false, if_true, Nat.add_sub_cancel, hfix,
    extract_encode b hb]

/-! ## Packing and unpacking -/

theorem length_natBits (w n : Nat) : (natBits w n).length = w := by
  simp [natBits]

theorem length_group (w : Nat) (bits : List Bool) (k : Nat) : (group w bits k).length = w := by
  simp [group]

theorem natBits_bitsToNat (l : List Bool) : natBits l.length (bitsToNat l) = l := by
  apply List.ext_getElem
  · simp [natBits]
  · intro j h1 h2
    simp only [natBits, List.getElem_map, List.getElem_range, testBit_bitsToNat]
    rw [List.getD_eq_getElem?_getD, List.getElem?_reverse (by omega)]
    have hj : l.length - 1 - (l.length - 1 - j) = j := by omega
    rw [hj, List.getElem?_eq_getElem h2]
    rfl

theorem map_getD_range (l : List Bool) :
    (List.range l.length).map (fun j => l.getD j false) = l := by
  apply List.ext_getElem
  · simp
  · intro j h1 h2
    simp only [List.getElem_map, List.getElem_range, List.getD_eq_getElem?_getD,
      List.getElem?_eq_getElem h2]
    rfl

theorem flatMap_range_blocks (f : Nat → Bool) (w m : Nat) :
    (List.range m).flatMap (fun k => (List.range w).map (fun j => f (w * k + j)))
      = (List.range (w * m)).map f := by
  induction m with
  | zero => simp
  | succ m ih =>
    rw [List.range_succ, List.flatMap_append, ih, Nat.mul_succ, List.range_add, List.map_append]
    simp [List.flatMap]

theorem byteOfBits_byteBits (x : Byte) : byteOfBits (byteBits x) = x := by
  apply Fin.ext
  simp only [byteOfBits, byteBits]
  rw [bitsToNat_natBits 8 x.val x.isLt]
  exact Nat.mod_eq_of_lt x.isLt

theorem length_bitString (bytes : List Byte) : (bitString bytes).length = 8 * bytes.length := by
  induction bytes with
  | nil => rfl
  | cons x xs ih =>
    simp only [bitString, List.flatMap_cons, List.length_append, List.length_cons] at ih ⊢
    rw [ih]
    simp [byteBits, natBits]
    omega

theorem group_bitString (bytes : List Byte) :
    ∀ k (h : k < bytes.length), group 8 (bitString bytes) k = byteBits bytes[k] := by
  induction bytes with
  | nil =>
    intro k h
    simp at h
  | cons x xs ih =>
    intro k h
    have hx : (byteBits x).length = 8 := by simp [byteBits, natBits]
    have hcons : bitString (x :: xs) = byteBits x ++ bitString xs := by
      simp [bitString, List.flatMap_cons]
    cases k with
    | zero =>
      simp only [List.getElem_cons_zero]
      conv_rhs => rw [← map_getD_range (byteBits x)]
      rw [hx, group, hcons]
      apply List.map_congr_left
      intro j hj
      rw [List.mem_range] at hj
      rw [List.getD_append _ _ _ _ (by omega)]
      congr 1
      omega
    | succ k =>
      simp only [List.getElem_cons_succ]
      rw [← ih k (by simpa using h), group, group, hcons]
      apply List.map_congr_left
      intro j hj
      rw [List.getD_append_right _ _ _ _ (by omega), hx]
      congr 1
      omega

theorem getD_padded (bits : List Bool) (m i : Nat) (hm : bits.length ≤ m) :
    ((List.range m).map (fun i => bits.getD i false)).getD i false = bits.getD i false := by
  by_cases hi : i < m
  · rw [List.getD_eq_getElem?_getD, List.getElem?_map, List.getElem?_range hi]
    rfl
  · rw [List.getD_eq_default _ _ (by simp; omega), List.getD_eq_default _ _ (by omega)]

theorem flatMap_natBits_pack (bytes : List Byte) :
    (pack bytes).flatMap (natBits 11)
      = (List.range (11 * (((bitString bytes).length + 10) / 11))).map
          (fun i => (bitString bytes).getD i false) := by
  rw [← flatMap_range_blocks]
  simp only [pack, List.flatMap, List.map_map]
  congr 1
  apply List.map_congr_left
  intro k _
  simp only [Function.comp]
  have h := natBits_bitsToNat (group 11 (bitString bytes) k)
  rw [length_group] at h
  rw [h, group]

theorem paddingBytes_le_one (n : Nat) : paddingBytes n ≤ 1 := by
  unfold paddingBytes
  omega

theorem group_past_end (bits : List Bool) (k : Nat) (h : bits.length ≤ 8 * k) :
    byteOfBits (group 8 bits k) = 0 := by
  have hg : group 8 bits k = (List.range 8).map (fun _ => false) := by
    rw [group]
    apply List.map_congr_left
    intro j _
    exact List.getD_eq_default _ _ (by omega)
  rw [hg]
  rfl

/-- Re-slicing the packed blocks gives the bytes back, followed by the zero
bytes of the padding. -/
theorem reslice_pack (bytes : List Byte) :
    reslice (pack bytes) = bytes ++ List.replicate (paddingBytes bytes.length) 0 := by
  have hlen := length_bitString bytes
  have hgroup : ∀ k, group 8 ((pack bytes).flatMap (natBits 11)) k
      = group 8 (bitString bytes) k := by
    intro k
    rw [flatMap_natBits_pack, group, group]
    apply List.map_congr_left
    intro j _
    exact getD_padded _ _ _ (by omega)
  have hcount : ((pack bytes).flatMap (natBits 11)).length
      = 11 * ((8 * bytes.length + 10) / 11) := by
    rw [flatMap_natBits_pack, hlen]
    simp
  unfold reslice
  rw [hcount]
  apply List.ext_getElem
  · simp only [List.length_map, List.length_range, List.length_append, List.length_replicate,
      paddingBytes]
    omega
  · intro k h1 h2
    simp only [List.getElem_map, List.getElem_range]
    rw [hgroup]
    by_cases hk : k < bytes.length
    · rw [List.getElem_append_left hk, group_bitString bytes k hk, byteOfBits_byteBits]
    · rw [List.getElem_append_right (by omega), List.getElem_replicate]
      exact group_past_end _ _ (by omega)

/-- Unpacking the packed blocks to the original length gives the bytes back. -/
theorem unpack_pack (bytes : List Byte) : unpack (pack bytes) bytes.length = bytes := by
  rw [unpack, reslice_pack]
  simp

theorem pack_lt (bytes : List Byte) : ∀ b ∈ pack bytes, b < 2048 := by
  intro b hb
  simp only [pack, List.mem_map, List.mem_range] at hb
  obtain ⟨k, _, rfl⟩ := hb
  have := bitsToNat_lt (group 11 (bitString bytes) k)
  rw [length_group] at this
  exact this

/-! ## Claims about the round trip through the coder of the specification -/

theorem specCoder_outcome (cfg : Config) (P : List Byte) (channel : List Nat → Int → List Nat)
    (hdec : (channel ((pack P).map encode) cfg.frameErrorProbability).map
      (fun c => (correctAndExtract c).1) = pack P) :
    (processMessage cfg (specCoder channel) P).outcome
      = Outcome.returned (P ++ List.replicate (paddingBytes P.length) 0, "", none) := by
  have hD : (specCoder channel).FixAndDecode
      ((specCoder channel).SetRandomErrors
        ((specCoder channel).Encode P).1 cfg.frameErrorProbability)
      = (P ++ List.replicate (paddingBytes P.length) 0, none) := by
    simp only [specCoder, hdec, reslice_pack]
  rw [processMessage_decoded cfg (specCoder channel) P _ rfl hD]
  have hno : ¬ ∃ i, i < P.length ∧
      i < (P ++ List.replicate (paddingBytes P.length) (0 : Byte)).length ∧
      P[i]? ≠ (P ++ List.replicate (paddingBytes P.length) (0 : Byte))[i]? := by
    rintro ⟨i, hi, _, h⟩
    rw [List.getElem?_append_left hi] at h
    exact h rfl
  rw [(validationLoop_zero (F := List Nat) _ P).2.1 hno (by simp)]

/-- What `processMessage` returns with a nil error is what `FixAndDecode`
returned. -/
theorem processMessage_returned_decoded {F : Type} (cfg : Config) (coder : Coder F)
    (message d : List Byte) (flag : String)
    (hpm : (processMessage cfg coder message).outcome = Outcome.returned (d, flag, none)) :
    (coder.FixAndDecode
      (coder.SetRandomErrors (coder.Encode message).1 cfg.frameErrorProbability)).1 = d := by
  rcases hE : (coder.Encode message).2 with _ | e
  · rcases hD : coder.FixAndDecode
        (coder.SetRandomErrors (coder.Encode message).1 cfg.frameErrorProbability)
      with ⟨d2, _ | e2⟩
    · rw [processMessage_decoded cfg coder message d2 hE hD] at hpm
      rcases hV : (validationLoop (F := F) d2 0 message).2 with flag2 | reason
      · rw [hV] at hpm
        simp only [Outcome.returned.injEq, Prod.mk.injEq, and_true] at hpm
        exact hpm.1
      · rw [hV] at hpm
        cases hpm
    · have hD2 : (coder.FixAndDecode
          (coder.SetRandomErrors (coder.Encode message).1 cfg.frameErrorProbability)).2
          = some e2 := by rw [hD]
      rw [processMessage_decodeErr cfg coder message e2 hE hD2] at hpm
      simp at hpm
  · rw [processMessage_encodeErr cfg coder message e hE] at hpm
    simp at hpm

theorem decode_encoded (blocks : List Nat) (h : ∀ b ∈ blocks, b < 2048) :
    (blocks.map encode).map (fun c => (correctAndExtract c).1) = blocks := by
  rw [List.map_map]
  conv_rhs => rw [← List.map_id blocks]
  apply List.map_congr_left
  intro b hb
  exact correctAndExtract_encode b (h b hb)

theorem decode_flipped : ∀ (blocks pos : List Nat), (∀ b ∈ blocks, b < 2048) →
    (∀ i ∈ pos, i < 15) → pos.length = blocks.length →
    (List.zipWith (fun c i => c ^^^ (1 <<< i)) (blocks.map encode) pos).map
      (fun c => (correctAndExtract c).1) = blocks := by
  intro blocks
  induction blocks with
  | nil =>
    intro pos _ _ _
    simp
  | cons b bs ih =>
    intro pos hb hp hlen
    cases pos with
    | nil => simp at hlen
    | cons i is =>
      simp only [List.map_cons, List.zipWith_cons_cons]
      rw [correctAndExtract_flip b i (hb b (by simp)) (hp i (by simp)),
        ih is (fun x hx => hb x (by simp [hx])) (fun x hx => hp x (by simp [hx]))
          (by simpa using hlen)]

/-- C1, as stated, fails: the three bytes 1, 2, 3 pack into three blocks
(33 bits), which re-slice into four bytes, so that with every frame unchanged
`processMessage` returns the four bytes 1, 2, 3, 0; and as 1, 2, 3 and
1, 2, 3, 0 encode to the same frames, no decoder that sees the frames only
returns the payload itself for every payload. -/
theorem round_trip_keeps_padding :
    (processMessage config (specCoder (fun frames _ => frames)) [1, 2, 3]).outcome
      = Outcome.returned ([1, 2, 3, 0], "", none) ∧
    ([1, 2, 3, 0] : List Byte) ≠ [1, 2, 3] ∧
    ¬ ∃ dec : List Nat → List Byte × Option String, ∀ P : List Byte,
      (processMessage config
        { Encode := fun message => ((pack message).map encode, none)
          SetRandomErrors := fun frames _ => frames
          FixAndDecode := dec } P).outcome = Outcome.returned (P, "", none) := by
  refine ⟨by decide, by decide, ?_⟩
  rintro ⟨dec, h⟩
  have h1 := processMessage_returned_decoded _ _ _ _ _ (h [1, 2, 3])
  have h2 := processMessage_returned_decoded _ _ _ _ _ (h [1, 2, 3, 0])
  have hframes : (pack [1, 2, 3]).map encode = (pack [1, 2, 3, 0]).map encode := by decide
  simp only at h1 h2
  rw [hframes, h2] at h1
  exact absurd h1 (by decide)

/-- C1, amended: zero-error round trip up to the padding.  Decoding the
codeword of any 11-bit block gives the block back, and for every payload `P`,
when the channel step leaves every encoded frame unchanged, `processMessage`
over the coder of the specification returns `P` followed by the zero bytes of
the padding of the last block (at most one byte, so that the first `len(P)`
bytes returned are `P`), the empty error marker and a nil error. -/
theorem processMessage_zero_error_round_trip (cfg : Config) (P : List Byte)
    (channel : List Nat → Int → List Nat) (b : Nat) (hb : b < 2 ^ 11)
    (hchan : channel ((pack P).map encode) cfg.frameErrorProbability = (pack P).map encode) :
    (correctAndExtract (encode b)).1 = b ∧
    (processMessage cfg (specCoder channel) P).outcome
      = Outcome.returned (P ++ List.replicate (paddingBytes P.length) 0, "", none) ∧
    paddingBytes P.length ≤ 1 ∧
    (P ++ List.replicate (paddingBytes P.length) (0 : Byte)).take P.length = P := by
  refine ⟨correctAndExtract_encode b hb, ?_, paddingBytes_le_one _, by simp⟩
  apply specCoder_outcome
  rw [hchan]
  exact decode_encoded (pack P) (pack_lt P)

/-- Instance of the amended C1: the payload 1, 2, 3 (one byte of padding)
through a channel whose every first draw is 500, above the error probability,
so that no frame is touched. -/
theorem processMessage_zero_error_round_trip_witness :
    (setRandomErrors (fun _ => 500) config.frameErrorProbability
      ((pack [1, 2, 3]).map encode) 0 = (pack [1, 2, 3]).map encode) ∧
    (correctAndExtract (encode 1337)).1 = 1337 ∧
    (processMessage config
        (specCoder (fun frames p => setRandomErrors (fun _ => 500) p frames 0))
        [1, 2, 3]).outcome
      = Outcome.returned
          ([1, 2, 3] ++ List.replicate (paddingBytes ([1, 2, 3] : List Byte).length) 0,
            "", none) ∧
    paddingBytes ([1, 2, 3] : List Byte).length ≤ 1 ∧
    (([1, 2, 3] : List Byte) ++
      List.replicate (paddingBytes ([1, 2, 3] : List Byte).length) (0 : Byte)).take
        ([1, 2, 3] : List Byte).length = [1, 2, 3] :=
  ⟨by decide,
   processMessage_zero_error_round_trip config [1, 2, 3]
     (fun frames p => setRandomErrors (fun _ => 500) p frames 0) 1337 (by decide) (by decide)⟩

/-- C2, as stated, fails in its last part: with bit 3 flipped in each of the
three frames of the payload 1, 2, 3, every block is corrected, and
`processMessage` returns the four bytes 1, 2, 3, 0, not the payload itself. -/
theorem single_bit_correction_keeps_padding :
    (setRandomErrors (fun _ => 3) config.frameErrorProbability ((pack [1, 2, 3]).map encode) 0
      = List.zipWith (fun c j => c ^^^ (1 <<< j)) ((pack [1, 2, 3]).map encode) [3, 3, 3]) ∧
    (processMessage config
        (specCoder (fun frames p => setRandomErrors (fun _ => 3) p frames 0))
        [1, 2, 3]).outcome
      = Outcome.returned ([1, 2, 3, 0], "", none) ∧
    ([1, 2, 3, 0] : List Byte) ≠ [1, 2, 3] := by
  decide

/-- C2, amended: single-bit correction.  For every 11-bit block `b` and every
bit position `i` below 15, flipping bit `i` of the codeword of `b` and running
the fix-and-decode step gives `b` back; hence for every payload `P`, when the
channel step flips exactly one bit (at positions `pos`) in every encoded
frame, `processMessage` over the coder of the specification returns what it
returns without errors: `P` followed by the zero bytes of the padding of the
last block (at most one byte, so that the first `len(P)` bytes returned are
`P`), the empty error marker and a nil error. -/
theorem processMessage_single_bit_correction (cfg : Config) (P : List Byte)
    (channel : List Nat → Int → List Nat) (pos : List Nat) (b i : Nat)
    (hb : b < 2 ^ 11) (hi : i < 15)
    (hlen : pos.length = (pack P).length) (hpos : ∀ j ∈ pos, j < 15)
    (hchan : channel ((pack P).map encode) cfg.frameErrorProbability
      = List.zipWith (fun c j => c ^^^ (1 <<< j)) ((pack P).map encode) pos) :
    (correctAndExtract (encode b ^^^ (1 <<< i))).1 = b ∧
    (processMessage cfg (specCoder channel) P).outcome
      = Outcome.returned (P ++ List.replicate (paddingBytes P.length) 0, "", none) ∧
    paddingBytes P.length ≤ 1 ∧
    (P ++ List.replicate (paddingBytes P.length) (0 : Byte)).take P.length = P := by
  refine ⟨correctAndExtract_flip b i hb hi, ?_, paddingBytes_le_one _, by simp⟩
  apply specCoder_outcome
  rw [hchan]
  exact decode_flipped (pack P) pos (pack_lt P) hpos hlen

/-- Instance of the amended C2: the payload HELLO (no padding byte) through a
channel whose every draw is 3, below the error probability, so that bit 3 of
each of the four frames is flipped. -/
theorem processMessage_single_bit_correction_witness :
    ([3, 3, 3, 3].length = (pack hello).length) ∧
    (∀ j ∈ [3, 3, 3, 3], j < 15) ∧
    (setRandomErrors (fun _ => 3) config.frameErrorProbability ((pack hello).map encode) 0
      = List.zipWith (fun c j => c ^^^ (1 <<< j)) ((pack hello).map encode) [3, 3, 3, 3]) ∧
    (correctAndExtract (encode 1337 ^^^ (1 <<< 4))).1 = 1337 ∧
    (processMessage config
        (specCoder (fun frames p => setRandomErrors (fun _ => 3) p frames 0))
        hello).outcome
      = Outcome.returned (hello ++ List.replicate (paddingBytes hello.length) 0, "", none) ∧
    paddingBytes hello.length ≤ 1 ∧
    (hello ++ List.replicate (paddingBytes hello.length) (0 : Byte)).take hello.length
      = hello :=
  ⟨by decide, by decide, by decide,
   processMessage_single_bit_correction config hello
     (fun frames p => setRandomErrors (fun _ => 3) p frames 0) [3, 3, 3, 3] 1337 4
     (by decide) (by decide) (by decide) (by decide) (by decide)⟩

/-! ## Claims about the validation in `processMessage` -/

/-- C3: when `Encode` and `FixAndDecode` succeed and the decoder output `d`
is at least as long as the message, `processMessage` returns `(d, flag, nil)`
with `d` unmodified, `flag` being "Error" exactly when some index below
`len(message)` holds differing bytes and the empty string otherwise; the
mismatch is never a non-nil error. -/
theorem processMessage_validation_postcondition {F : Type} (cfg : Config) (coder : Coder F)
    (message d : List Byte) (hE : (coder.Encode message).2 = none)
    (hD : coder.FixAndDecode
      (coder.SetRandomErrors (coder.Encode message).1 cfg.frameErrorProbability) = (d, none))
    (hlen : message.length ≤ d.length) :
    ∃ flag, (processMessage cfg coder message).outcome = Outcome.returned (d, flag, none) ∧
      (flag = "Error" ↔ ∃ i, i < message.length ∧ message[i]? ≠ d[i]?) ∧
      (flag = "" ↔ ¬ ∃ i, i < message.length ∧ message[i]? ≠ d[i]?) := by
  obtain ⟨h1, h2, _⟩ := validationLoop_zero (F := F) d message
  rw [processMessage_decoded cfg coder message d hE hD]
  by_cases hm : ∃ i, i < message.length ∧ message[i]? ≠ d[i]?
  · have hm2 : ∃ i, i < message.length ∧ i < d.length ∧ message[i]? ≠ d[i]? := by
      obtain ⟨i, hi, hne⟩ := hm
      exact ⟨i, hi, by omega, hne⟩
    refine ⟨"Error", ?_, ?_, ?_⟩
    · simp only [h1 hm2]
    · simp only [true_iff]
      exact hm
    · constructor
      · intro h
        exact absurd h (by decide)
      · intro h
        exact absurd hm h
  · have hm2 : ¬ ∃ i, i < message.length ∧ i < d.length ∧ message[i]? ≠ d[i]? := by
      rintro ⟨i, hi, _, hne⟩
      exact hm ⟨i, hi, hne⟩
    refine ⟨"", ?_, ?_, ?_⟩
    · simp only [h2 hm2 hlen]
    · constructor
      · intro h
        exact absurd h (by decide)
      · intro h
        exact absurd h hm
    · simp only [true_iff]
      exact hm

/-- Instance of C3: a two-byte message whose second byte is decoded wrongly. -/
theorem processMessage_validation_postcondition_witness :
    ∃ flag, (processMessage config (stubCoder () none [1, 7, 0] none) [1, 2]).outcome
        = Outcome.returned ([1, 7, 0], flag, none) ∧
      (flag = "Error" ↔ ∃ i, i < [(1 : Byte), 2].length ∧
        [(1 : Byte), 2][i]? ≠ [(1 : Byte), 7, 0][i]?) ∧
      (flag = "" ↔ ¬ ∃ i, i < [(1 : Byte), 2].length ∧
        [(1 : Byte), 2][i]? ≠ [(1 : Byte), 7, 0][i]?) :=
  processMessage_validation_postcondition config (stubCoder () none [1, 7, 0] none) [1, 2]
    [1, 7, 0] rfl rfl (by decide)

/-- C4, as stated, fails: a decoder output one byte longer than the message
that extends it is returned with the empty marker. -/
theorem length_mismatch_not_reported :
    ([(1 : Byte), 0] : List Byte).length ≠ ([(1 : Byte)] : List Byte).length ∧
      (processMessage config (stubCoder () none [1, 0] none) [1]).outcome
        = Outcome.returned ([1, 0], "", none) := by
  decide

/-- C4, amended: the validation compares the first `len(message)` bytes only.
When the decoder output `d` is at least as long as the message, the marker is
empty exactly when the first `len(message)` bytes of `d` are the message, and
"Error" otherwise; and whatever the lengths, a differing byte at an index both
sequences have yields "Error". -/
theorem processMessage_marker_compares_message_length {F : Type} (cfg : Config)
    (coder : Coder F) (message d : List Byte) (hE : (coder.Encode message).2 = none)
    (hD : coder.FixAndDecode
      (coder.SetRandomErrors (coder.Encode message).1 cfg.frameErrorProbability) = (d, none)) :
    (message.length ≤ d.length →
      (d.take message.length = message →
        (processMessage cfg coder message).outcome = Outcome.returned (d, "", none)) ∧
      (d.take message.length ≠ message →
        (processMessage cfg coder message).outcome = Outcome.returned (d, "Error", none))) ∧
    ((∃ i, i < message.length ∧ i < d.length ∧ message[i]? ≠ d[i]?) →
      (processMessage cfg coder message).outcome = Outcome.returned (d, "Error", none)) := by
  obtain ⟨h1, h2, _⟩ := validationLoop_zero (F := F) d message
  rw [processMessage_decoded cfg coder message d hE hD]
  refine ⟨fun hlen => ⟨?_, ?_⟩, ?_⟩
  · intro hpre
    have hm : ¬ ∃ i, i < message.length ∧ i < d.length ∧ message[i]? ≠ d[i]? := by
      rw [no_mismatch_iff_take, hpre, List.take_of_length_le hlen]
    simp only [h2 hm hlen]
  · intro hpre
    have hm : ∃ i, i < message.length ∧ i < d.length ∧ message[i]? ≠ d[i]? := by
      by_contra hno
      rw [no_mismatch_iff_take, List.take_of_length_le hlen] at hno
      exact hpre hno.symm
    simp only [h1 hm]
  · intro hm
    simp only [h1 hm]

/-- Instance of the amended C4: a longer output that extends the message, a
longer output that does not, and a shorter output with a differing byte. -/
theorem processMessage_marker_compares_message_length_witness :
    ((processMessage config (stubCoder () none [1, 2, 0] none) [1, 2]).outcome
        = Outcome.returned ([1, 2, 0], "", none)) ∧
    ((processMessage config (stubCoder () none [1, 3, 0] none) [1, 2]).outcome
        = Outcome.returned ([1, 3, 0], "Error", none)) ∧
    ((processMessage config (stubCoder () none [5] none) [1, 2]).outcome
        = Outcome.returned ([5], "Error", none)) :=
  ⟨((processMessage_marker_compares_message_length config (stubCoder () none [1, 2, 0] none)
      [1, 2] [1, 2, 0] rfl rfl).1 (by decide)).1 (by decide),
   ((processMessage_marker_compares_message_length config (stubCoder () none [1, 3, 0] none)
      [1, 2] [1, 3, 0] rfl rfl).1 (by decide)).2 (by decide),
   (processMessage_marker_compares_message_length config (stubCoder () none [5] none)
      [1, 2] [5] rfl rfl).2 ⟨0, by decide, by decide, by decide⟩⟩

/-- C10: in the validation loop of `processMessage` the access
`decodedFrames[ind]` stays in range whenever the decoder output is at least as
long as the message, and an access out of range (a panic) is reached exactly
when the output is shorter than the message and equals the first `len(d)`
bytes of the message. -/
theorem processMessage_index_safety {F : Type} (cfg : Config) (coder : Coder F)
    (message d : List Byte) (hE : (coder.Encode message).2 = none)
    (hD : coder.FixAndDecode
      (coder.SetRandomErrors (coder.Encode message).1 cfg.frameErrorProbability) = (d, none)) :
    (message.length ≤ d.length →
      ∀ reason, (processMessage cfg coder message).outcome ≠ Outcome.panicked reason) ∧
    ((∃ reason, (processMessage cfg coder message).outcome = Outcome.panicked reason) ↔
      d.length < message.length ∧ d = message.take d.length) := by
  obtain ⟨h1, h2, h3⟩ := validationLoop_zero (F := F) d message
  rw [processMessage_decoded cfg coder message d hE hD]
  by_cases hm : ∃ i, i < message.length ∧ i < d.length ∧ message[i]? ≠ d[i]?
  · rw [h1 hm]
    refine ⟨fun _ reason h => (by cases h), ?_⟩
    constructor
    · rintro ⟨reason, h⟩
      cases h
    · rintro ⟨hlt, hpre⟩
      exfalso
      have hno := (no_mismatch_iff_take message d).mpr
        (by rw [List.take_of_length_le (Nat.le_of_lt hlt)]; exact hpre.symm)
      exact hno hm
  · by_cases hlen : message.length ≤ d.length
    · rw [h2 hm hlen]
      refine ⟨fun _ reason h => (by cases h), ?_⟩
      constructor
      · rintro ⟨reason, h⟩
        cases h
      · rintro ⟨hlt, _⟩
        omega
    · have hlt : d.length < message.length := by omega
      rw [h3 hm hlt]
      refine ⟨fun h => absurd h hlen, ?_⟩
      constructor
      · intro _
        refine ⟨hlt, ?_⟩
        have := (no_mismatch_iff_take message d).mp hm
        rw [List.take_of_length_le (Nat.le_of_lt hlt)] at this
        exact this.symm
      · intro _
        exact ⟨_, rfl⟩

/-- Instance of C10: the decoder output is the first byte of a two-byte
message (a panic), and a three-byte output for the same message (no panic). -/
theorem processMessage_index_safety_witness :
    (∀ reason, (processMessage config (stubCoder () none [1, 2, 0] none) [1, 2]).outcome
        ≠ Outcome.panicked reason) ∧
    (∃ reason, (processMessage config (stubCoder () none [1] none) [1, 2]).outcome
        = Outcome.panicked reason) :=
  ⟨(processMessage_index_safety config (stubCoder () none [1, 2, 0] none) [1, 2] [1, 2, 0]
      rfl rfl).1 (by decide),
   (processMessage_index_safety config (stubCoder () none [1] none) [1, 2] [1]
      rfl rfl).2.mpr ⟨by decide, by decide⟩⟩

/-! ## Claims about `transfer` -/

/-- C5: for every draw `r` in `[0, 1000)` and every loss threshold, `transfer`
drops the message (prints the loss and returns, doing nothing else) exactly
when `r` is below the threshold; with threshold 0 no draw drops it and with
threshold 1000 every draw does. -/
theorem transfer_drop_decision {F : Type} (cfg : Config) (w : World F)
    (codeRequest : CodeRequest) (hr : w.randIntn < 1000) :
    (transfer cfg w codeRequest = lostRun F ↔ (w.randIntn : Int) < cfg.frameLoseProbability) ∧
    (cfg.frameLoseProbability = 0 → transfer cfg w codeRequest ≠ lostRun F) ∧
    (cfg.frameLoseProbability = 1000 → transfer cfg w codeRequest = lostRun F) := by
  refine ⟨transfer_lost_iff cfg w codeRequest, ?_, ?_⟩
  · intro h0
    apply transfer_kept_ne_lost
    rw [h0]
    omega
  · intro h1000
    apply transfer_lost
    rw [h1000]
    omega

/-- Instance of C5: draw 999 under the thresholds 16, 0 and 1000. -/
theorem transfer_drop_decision_witness :
    (999 < 1000) ∧
    (transfer config (stubWorld (stubCoder () none hello none) 999) helloRequest
        = lostRun Unit ↔ ((999 : Nat) : Int) < config.frameLoseProbability) ∧
    (transfer { config with frameLoseProbability := 0 }
        (stubWorld (stubCoder () none hello none) 999) helloRequest ≠ lostRun Unit) ∧
    (transfer { config with frameLoseProbability := 1000 }
        (stubWorld (stubCoder () none hello none) 999) helloRequest = lostRun Unit) :=
  ⟨by decide,
   (transfer_drop_decision config (stubWorld (stubCoder () none hello none) 999)
      helloRequest (by decide)).1,
   (transfer_drop_decision { config with frameLoseProbability := 0 }
      (stubWorld (stubCoder () none hello none) 999) helloRequest (by decide)).2.1 rfl,
   (transfer_drop_decision { config with frameLoseProbability := 1000 }
      (stubWorld (stubCoder () none hello none) 999) helloRequest (by decide)).2.2 rfl⟩

/-- C6: under the compiled `frameLoseProbability` the draws that lose the
message are exactly `0, ..., 15`, sixteen of the thousand (1.6 %), not ten:
draw 10 loses the message and draw 16 is the first that keeps it. -/
theorem transfer_loses_sixteen_draws :
    lostDraws config = List.range 16 ∧ (lostDraws config).length = 16 ∧
    transfer config (stubWorld (stubCoder () none hello none) 10) helloRequest
      = lostRun Unit ∧
    transfer config (stubWorld (stubCoder () none hello none) 16) helloRequest
      ≠ lostRun Unit := by
  have hl : lostDraws config = List.range 16 := by decide!
  refine ⟨hl, by rw [hl]; rfl, ?_, ?_⟩
  · exact transfer_lost _ _ _ (by decide)
  · exact transfer_kept_ne_lost _ _ _ (by decide)

/-- C7: when the drop draw fires, `transfer` prints the loss and returns: its
run is the lost run, so it makes no call of the coder (`processMessage` is not
entered) and neither builds nor sends a downstream request. -/
theorem transfer_drop_short_circuits {F : Type} (cfg : Config) (w : World F)
    (codeRequest : CodeRequest) (h : (w.randIntn : Int) < cfg.frameLoseProbability) :
    transfer cfg w codeRequest =
      { trace := [Event.fmtPrintln "[Info] Message lost"], outcome := Outcome.returned () } ∧
    ∀ ev, ev ∈ (transfer cfg w codeRequest).trace →
      ev.isCoderCall = false ∧ ev.isDownstream = false := by
  have hl := transfer_lost cfg w codeRequest h
  refine ⟨hl, ?_⟩
  intro ev hev
  rw [hl] at hev
  simp only [lostRun, List.mem_singleton] at hev
  subst hev
  exact ⟨rfl, rfl⟩

/-- Instance of C7: draw 3 under the compiled threshold 16. -/
theorem transfer_drop_short_circuits_witness :
    (((3 : Nat) : Int) < config.frameLoseProbability) ∧
    (transfer config (stubWorld (stubCoder () none hello none) 3) helloRequest =
      { trace := [Event.fmtPrintln "[Info] Message lost"], outcome := Outcome.returned () } ∧
    ∀ ev, ev ∈ (transfer config (stubWorld (stubCoder () none hello none) 3)
        helloRequest).trace →
      ev.isCoderCall = false ∧ ev.isDownstream = false) :=
  ⟨by decide,
   transfer_drop_short_circuits config (stubWorld (stubCoder () none hello none) 3)
     helloRequest (by decide)⟩

/-- C8: for a request that is not dropped and whose processing returns
`(d, flag, nil)`, with or without a mismatch, `transfer` marshals exactly one
record; it carries the inbound `Id`, `MessageId`, `Sender`, `Time`, `SegCount`
and `SegNum`, the reconstructed bytes `d` as `Payload` and the validation
marker as `Error` (the inbound `Error` is not copied); the marker is non-empty
exactly when validation met a differing byte; and once marshalling and request
construction succeed, the marshalled body is sent to the transfer endpoint. -/
theorem transfer_downstream_record {F : Type} (cfg : Config) (w : World F)
    (codeRequest : CodeRequest) (d : List Byte) (flag : String)
    (hkeep : ¬ (w.randIntn : Int) < cfg.frameLoseProbability)
    (hpm : (processMessage cfg w.coder codeRequest.Payload).outcome
      = Outcome.returned (d, flag, none)) :
    (∃ v, Event.jsonMarshal v ∈ (transfer cfg w codeRequest).trace) ∧
    (∀ v, Event.jsonMarshal v ∈ (transfer cfg w codeRequest).trace →
      v = { Id := codeRequest.Id
            MessageId := codeRequest.MessageId
            Sender := codeRequest.Sender
            Time := codeRequest.Time
            SegCount := codeRequest.SegCount
            SegNum := codeRequest.SegNum
            Payload := d
            Error := flag }) ∧
    (flag ≠ "" ↔ ∃ i, i < codeRequest.Payload.length ∧ i < d.length ∧
      codeRequest.Payload[i]? ≠ d[i]?) ∧
    (∀ body, w.jsonMarshal (transferRecord codeRequest d flag) = (body, none) →
      w.httpNewRequest "POST" cfg.transferEndpoint body = none →
        Event.httpDo cfg.transferEndpoint body ∈ (transfer cfg w codeRequest).trace) := by
  rw [transfer_sent cfg w codeRequest hkeep d flag hpm]
  refine ⟨⟨transferRecord codeRequest d flag, ?_⟩, ?_, ?_, ?_⟩
  · exact List.mem_append_right _ (sendDownstream_marshal_mem cfg w codeRequest d flag)
  · intro v hv
    simp only [List.mem_append] at hv
    rcases hv with hv | hv
    · have := processMessage_trace_not_downstream cfg w.coder codeRequest.Payload _ hv
      simp [Event.isDownstream] at this
    · exact sendDownstream_marshal_unique cfg w codeRequest d flag v hv
  · exact (processMessage_flag cfg w.coder codeRequest.Payload d flag hpm).2
  · intro body hm hn
    exact List.mem_append_right _ (sendDownstream_do_mem cfg w codeRequest d flag body hm hn)

/-- Instance of C8: the sample request, kept (draw 500), decoded with a wrong
second byte, so that the record carries the marker "Error". -/
theorem transfer_downstream_record_witness :
    (∃ v, Event.jsonMarshal v ∈
      (transfer config (stubWorld (stubCoder () none [72, 0, 76, 76, 79] none) 500)
        helloRequest).trace) ∧
    (∀ v, Event.jsonMarshal v ∈
      (transfer config (stubWorld (stubCoder () none [72, 0, 76, 76, 79] none) 500)
        helloRequest).trace →
      v = { Id := helloRequest.Id
            MessageId := helloRequest.MessageId
            Sender := helloRequest.Sender
            Time := helloRequest.Time
            SegCount := helloRequest.SegCount
            SegNum := helloRequest.SegNum
            Payload := [72, 0, 76, 76, 79]
            Error := "Error" }) ∧
    ("Error" ≠ "" ↔ ∃ i, i < helloRequest.Payload.length ∧
      i < ([72, 0, 76, 76, 79] : List Byte).length ∧
      helloRequest.Payload[i]? ≠ ([72, 0, 76, 76, 79] : List Byte)[i]?) ∧
    (∀ body,
      (stubWorld (stubCoder () none [72, 0, 76, 76, 79] none) 500).jsonMarshal
        (transferRecord helloRequest [72, 0, 76, 76, 79] "Error") = (body, none) →
      (stubWorld (stubCoder () none [72, 0, 76, 76, 79] none) 500).httpNewRequest "POST"
        config.transferEndpoint body = none →
        Event.httpDo config.transferEndpoint body ∈
          (transfer config (stubWorld (stubCoder () none [72, 0, 76, 76, 79] none) 500)
            helloRequest).trace) :=
  transfer_downstream_record config
    (stubWorld (stubCoder () none [72, 0, 76, 76, 79] none) 500) helloRequest
    [72, 0, 76, 76, 79] "Error" (by decide) (by decide)

/-- C9: a codec failure aborts that message only.  If `Encode` returns an
error, `processMessage` returns `(nil, "", err)` with a non-nil error after the
`Encode` call and one log line, calling neither `SetRandomErrors` nor
`FixAndDecode`; if `FixAndDecode` returns an error, `processMessage` returns
`(nil, "", err)` with a non-nil error after the three coder calls and one log
line, without validating; in both cases `transfer` returns and nothing in its
run builds or sends a downstream request. -/
theorem codec_failure_aborts_message {F : Type} (cfg : Config) (w : World F)
    (codeRequest : CodeRequest) (err : String) :
    ((w.coder.Encode codeRequest.Payload).2 = some err →
      processMessage cfg w.coder codeRequest.Payload =
        { trace := [Event.coderEncode codeRequest.Payload,
                    Event.logPrintln "[Error] Encoding issue"]
          outcome := Outcome.returned ([], "", some ("Enocding issue: " ++ err)) } ∧
      (transfer cfg w codeRequest).outcome = Outcome.returned () ∧
      ∀ ev, ev ∈ (transfer cfg w codeRequest).trace → ev.isDownstream = false) ∧
    ((w.coder.Encode codeRequest.Payload).2 = none →
      (w.coder.FixAndDecode (w.coder.SetRandomErrors (w.coder.Encode codeRequest.Payload).1
        cfg.frameErrorProbability)).2 = some err →
      processMessage cfg w.coder codeRequest.Payload =
        { trace :=
            [Event.coderEncode codeRequest.Payload,
             Event.coderSetRandomErrors (w.coder.Encode codeRequest.Payload).1
               cfg.frameErrorProbability,
             Event.coderFixAndDecode
               (w.coder.SetRandomErrors (w.coder.Encode codeRequest.Payload).1
                 cfg.frameErrorProbability),
             Event.logPrintln "[Error] Decoding issue"]
          outcome := Outcome.returned ([], "", some ("Decoding issue: " ++ err)) } ∧
      (transfer cfg w codeRequest).outcome = Outcome.returned () ∧
      ∀ ev, ev ∈ (transfer cfg w codeRequest).trace → ev.isDownstream = false) := by
  have key : ∀ e2 : String,
      (processMessage cfg w.coder codeRequest.Payload).outcome
        = Outcome.returned ([], "", some e2) →
      (transfer cfg w codeRequest).outcome = Outcome.returned () ∧
      ∀ ev, ev ∈ (transfer cfg w codeRequest).trace → ev.isDownstream = false := by
    intro e2 hpm
    by_cases hdrop : (w.randIntn : Int) < cfg.frameLoseProbability
    · rw [transfer_lost cfg w codeRequest hdrop]
      refine ⟨rfl, ?_⟩
      intro ev hev
      simp only [lostRun, List.mem_singleton] at hev
      subst hev
      rfl
    · rw [transfer_failed cfg w codeRequest hdrop [] "" e2 hpm]
      refine ⟨rfl, ?_⟩
      intro ev hev
      simp only [List.mem_append, List.mem_singleton] at hev
      rcases hev with hev | hev
      · exact processMessage_trace_not_downstream cfg w.coder codeRequest.Payload ev hev
      · subst hev
        rfl
  constructor
  · intro hE
    have hpm := processMessage_encodeErr cfg w.coder codeRequest.Payload err hE
    exact ⟨hpm, key _ (by rw [hpm])⟩
  · intro hE hD
    have hpm := processMessage_decodeErr cfg w.coder codeRequest.Payload err hE hD
    exact ⟨hpm, key _ (by rw [hpm])⟩

/-- Instance of C9: a coder whose `Encode` fails, and one whose `FixAndDecode`
fails, on the sample request with draw 500. -/
theorem codec_failure_aborts_message_witness :
    (processMessage config (stubWorld (stubCoder () (some "bad") [] none) 500).coder
        helloRequest.Payload =
        { trace := [Event.coderEncode helloRequest.Payload,
                    Event.logPrintln "[Error] Encoding issue"]
          outcome := Outcome.returned ([], "", some ("Enocding issue: " ++ "bad")) } ∧
      (transfer config (stubWorld (stubCoder () (some "bad") [] none) 500)
        helloRequest).outcome = Outcome.returned () ∧
      ∀ ev, ev ∈ (transfer config (stubWorld (stubCoder () (some "bad") [] none) 500)
        helloRequest).trace → ev.isDownstream = false) ∧
    ((transfer config (stubWorld (stubCoder () none [] (some "bad")) 500)
        helloRequest).outcome = Outcome.returned () ∧
      ∀ ev, ev ∈ (transfer config (stubWorld (stubCoder () none [] (some "bad")) 500)
        helloRequest).trace → ev.isDownstream = false) :=
  ⟨(codec_failure_aborts_message config (stubWorld (stubCoder () (some "bad") [] none) 500)
      helloRequest "bad").1 rfl,
   ((codec_failure_aborts_message config (stubWorld (stubCoder () none [] (some "bad")) 500)
      helloRequest "bad").2 rfl rfl).2⟩

end ChanalLevel
